import Mathlib

/-
Verification of the EstimNetDirected core (equilibriumExpectation.c,
basicSampler.c) against its natural-language specification.

The C sources are shallowly embedded over exact rational arithmetic:
C `double` values are modelled as ℚ, C arrays of doubles as functions
`ℕ → ℚ` (the program only ever reads indices `< n`), and the process-wide
PRNG as an explicit input stream of draws.  Where the comparison
semantics of IEEE doubles matters (the Metropolis accept test compares
a uniform draw against `exp(total)`, which can overflow to +infinity or
be NaN), the value classes of a double are modelled by the inductive
type `DVal` below, and `exp` itself is an abstract parameter
`expD : ℚ → DVal` of the sampler.
-/

namespace EstimNet

/-- Value classes of an IEEE-754 double that are relevant to the
Metropolis comparison `urand() < exp(total)` in basicSampler.c line 193:
a finite value (held exactly as a rational), positive infinity (the
result of `exp` overflowing), and NaN.  `exp` applied to a finite
argument never returns negative infinity, so that class is omitted. -/
inductive DVal where
  | fin (q : ℚ)
  | posInf
  | nan
deriving DecidableEq

/-- Modelled from the spec: the IEEE-754 `<` comparison on doubles used
by `urand() < exp(total)`.  NaN compares false with everything; positive
infinity is strictly greater than every finite value. -/
def dLt : DVal → DVal → Bool
  | .fin a, .fin b => decide (a < b)
  | .fin _, .posInf => true
  | .fin _, .nan => false
  | .posInf, _ => false
  | .nan, _ => false

/-- Modelled from the spec: the digraph object of digraph.c (whose source
is not part of the verified tree; only its callers and the header
comments are).  `arcset` is the adjacency-based arc set queried by
`isArc` and maintained by `insertArc`/`removeArc`; `allarcs` is the flat
all-arcs list, which those two operations do NOT maintain (basicSampler.c
lines 96-99 document that the sampler never updates it).  `zone`,
`maxZone`, `innerNodes` and `prevWaveDegree` are the snowball sampling
fields of the spec's data model (section 3).  The two-path count
matrices are omitted: the change-statistic functions that read them are
abstract in this development. -/
structure Digraph where
  numNodes : ℕ
  arcset : Finset (ℕ × ℕ)
  allarcs : List (ℕ × ℕ)
  zone : ℕ → ℕ
  maxZone : ℕ
  innerNodes : List ℕ
  prevWaveDegree : ℕ → ℕ

/-- Modelled from the spec: `isArc(g, i, j)` of digraph.c. -/
def isArc (g : Digraph) (i j : ℕ) : Bool :=
  decide ((i, j) ∈ g.arcset)

/-- Modelled from the spec: `isArcIgnoreDirection(g, i, j)` of digraph.c,
true when the arc exists in either direction. -/
def isArcIgnoreDirection (g : Digraph) (i j : ℕ) : Bool :=
  isArc g i j || isArc g j i

/-- Modelled from the spec: `insertArc(g, i, j)` of digraph.c.  Inserts
the arc into the adjacency-based arc set and repairs `prevWaveDegree`
for the two endpoints (spec section 4.1); it does not touch the flat
`allarcs` list. -/
def insertArc (g : Digraph) (i j : ℕ) : Digraph :=
  { g with
    arcset := insert (i, j) g.arcset
    prevWaveDegree := fun v =>
      if (v = i ∧ g.zone j + 1 = g.zone i) ∨ (v = j ∧ g.zone i + 1 = g.zone j) then
        g.prevWaveDegree v + 1
      else g.prevWaveDegree v }

/-- Modelled from the spec: `removeArc(g, i, j)` of digraph.c.  Removes
the arc from the adjacency-based arc set and repairs `prevWaveDegree`;
it does not touch the flat `allarcs` list. -/
def removeArc (g : Digraph) (i j : ℕ) : Digraph :=
  { g with
    arcset := g.arcset.erase (i, j)
    prevWaveDegree := fun v =>
      if (v = i ∧ g.zone j + 1 = g.zone i) ∨ (v = j ∧ g.zone i + 1 = g.zone j) then
        g.prevWaveDegree v - 1
      else g.prevWaveDegree v }

/-- Configuration of one basicSampler call: the flattened registry of
change-statistic functions (structural, then attribute, then dyadic, in
the fixed registry order; `chgStat k` is the function at overall
parameter index `k`), the parameter vector theta, the three mode flags,
and the abstract IEEE exponential `expD`. -/
structure SamplerCfg where
  n : ℕ
  chgStat : ℕ → Digraph → ℕ → ℕ → ℚ
  theta : ℕ → ℚ
  performMove : Bool
  useConditionalEstimation : Bool
  forbidReciprocity : Bool
  expD : ℚ → DVal

/-- The random input consumed by one proposal of the sampler: the
sequence of candidate dyad draws fed to the rejection loop of dyad
selection (in conditional mode these are the node pairs obtained by
indexing `inner_nodes` with `int_urand`), and the uniform draw `u`
used by the Metropolis accept test. -/
structure Proposal where
  draws : List (ℕ × ℕ)
  u : ℚ

/-- Exit condition of the dyad-selection loop in unconditional mode
(basicSampler.c lines 151-158): the two nodes differ, and when
`forbidReciprocity` is set, the proposal is not an add that would
create a mutual dyad. -/
def uncondOK (g : Digraph) (forbidRecip : Bool) (p : ℕ × ℕ) : Bool :=
  decide (p.1 ≠ p.2) && !(forbidRecip && !isArc g p.1 p.2 && isArc g p.2 p.1)

/-- Exit condition of the dyad-selection loop in conditional (snowball)
mode (basicSampler.c lines 134-146): the two nodes differ, their zones
are within distance one, and the proposal is not a deletion (an existing
tie, ignoring direction) that would drop the last connection of the
deeper endpoint to its preceding wave. -/
def condOK (g : Digraph) (p : ℕ × ℕ) : Bool :=
  decide (p.1 ≠ p.2) &&
  decide (((g.zone p.1 : ℤ) - (g.zone p.2 : ℤ)).natAbs ≤ 1) &&
  !(isArcIgnoreDirection g p.1 p.2 &&
    ((decide (g.zone p.2 < g.zone p.1) && decide (g.prevWaveDegree p.1 = 1)) ||
     (decide (g.zone p.1 < g.zone p.2) && decide (g.prevWaveDegree p.2 = 1))))

/-- Dyad selection: the rejection-sampling loops of basicSampler.c
return the first candidate draw that satisfies the exit condition of
the active mode. -/
def selectDyad (g : Digraph) (useCond forbidRecip : Bool)
    (draws : List (ℕ × ℕ)) : Option (ℕ × ℕ) :=
  if useCond then draws.find? (condOK g) else draws.find? (uncondOK g forbidRecip)

/-- Mutable state of one basicSampler call: the digraph, the C local
variable `isDelete` (initialised to FALSE at line 115 and, in
conditional mode, never reassigned), the two output accumulators, and
the count of accepted moves. -/
structure SamplerState where
  g : Digraph
  isDelete : Bool
  addCS : ℕ → ℚ
  delCS : ℕ → ℚ
  accepted : ℕ

/-- The accumulation of `total += theta[param_i] * s * changestats[param_i]`
over the three change-statistic loops of basicSampler.c lines 169-189,
flattened over the overall parameter index `0 <= k < n`. -/
def computeTotal (n : ℕ) (theta : ℕ → ℚ) (s : ℚ) (cs : ℕ → ℚ) : ℚ :=
  (List.range n).foldl (fun acc k => acc + theta k * s * cs k) 0

/-- The value of the C local variable `isDelete` at the point of
change-statistic computation: basicSampler.c assigns
`isDelete = isArc(g, i, j)` inside the unconditional selection loop
(line 156), while in conditional mode the variable is never assigned
and keeps its previous value (it is initialised to FALSE at line 115
and the conditional branch at lines 124-146 does not set it). -/
def effIsDelete (cfg : SamplerCfg) (st : SamplerState) (i j : ℕ) : Bool :=
  if cfg.useConditionalEstimation then st.isDelete else isArc st.g i j

/-- The body of one proposal of basicSampler.c after dyad selection
(lines 161-220), split on `isDelete`.  Delete case: the arc is
temporarily removed, the change statistics are evaluated on the reduced
graph with sign `s = -1` in `total`; on accept the deletion stays if
performMove and is re-inserted otherwise, the statistics go into
`delChangeStats`; on reject the arc is re-inserted.  Add case: the
statistics are evaluated on the unchanged graph with `s = +1`; on
accept the arc is inserted only when performMove, the statistics go
into `addChangeStats`; a rejected add leaves the graph untouched. -/
def proposalGo (cfg : SamplerCfg) (st : SamplerState) (i j : ℕ) (u : ℚ) :
    Bool → SamplerState × Bool
  | true =>
    if dLt (DVal.fin u) (cfg.expD (computeTotal cfg.n cfg.theta (-1)
        fun k => cfg.chgStat k (removeArc st.g i j) i j)) then
      ({ g := if cfg.performMove then removeArc st.g i j
              else insertArc (removeArc st.g i j) i j
         isDelete := true
         addCS := st.addCS
         delCS := fun k => st.delCS k + cfg.chgStat k (removeArc st.g i j) i j
         accepted := st.accepted + 1 }, true)
    else
      ({ st with g := insertArc (removeArc st.g i j) i j, isDelete := true }, false)
  | false =>
    if dLt (DVal.fin u) (cfg.expD (computeTotal cfg.n cfg.theta 1
        fun k => cfg.chgStat k st.g i j)) then
      ({ g := if cfg.performMove then insertArc st.g i j else st.g
         isDelete := false
         addCS := fun k => st.addCS k + cfg.chgStat k st.g i j
         delCS := st.delCS
         accepted := st.accepted + 1 }, true)
    else
      ({ st with isDelete := false }, false)

/-- One proposal of basicSampler.c (lines 122-221): select a dyad, then
run the proposal body on the effective `isDelete` value.  Returns the
new state paired with whether the proposal was accepted; when the
supplied draws never satisfy the selection condition the state is
returned unchanged (the C loop would keep drawing). -/
def proposalStepFull (cfg : SamplerCfg) (st : SamplerState) (pr : Proposal) :
    SamplerState × Bool :=
  match selectDyad st.g cfg.useConditionalEstimation cfg.forbidReciprocity pr.draws with
  | none => (st, false)
  | some (i, j) => proposalGo cfg st i j pr.u (effIsDelete cfg st i j)

/-- One proposal of basicSampler.c, keeping only the state. -/
def proposalStep (cfg : SamplerCfg) (st : SamplerState) (pr : Proposal) : SamplerState :=
  (proposalStepFull cfg st pr).1

/-- basicSampler.c lines 101-226: zero the two accumulators, run
`sampler_m` proposals (one per element of `props`), threading the state
through.  The acceptance rate returned by the C function is
`accepted / sampler_m` of the final state. -/
def initState (g0 : Digraph) : SamplerState :=
  { g := g0, isDelete := false, addCS := fun _ => 0, delCS := fun _ => 0,
    accepted := 0 }

/-- basicSampler.c lines 101-226 (continued): fold the proposals over
the initial state. -/
def basicSampler (cfg : SamplerCfg) (g0 : Digraph) (props : List Proposal) :
    SamplerState :=
  props.foldl (proposalStep cfg) (initState g0)

/-- Per-iteration output of one sampler call as consumed by the two
estimation algorithms: the add-move and delete-move change-statistic
accumulators. -/
structure SamplerOut where
  addCS : ℕ → ℚ
  delCS : ℕ → ℚ

/-- State threaded through the loop of algorithm_S: the parameter
vector `theta` and the squared-derivative accumulator `D0`. -/
structure SState where
  theta : ℕ → ℚ
  D0 : ℕ → ℚ

/-- One iteration of the loop of algorithm_S
(equilibriumExpectation.c lines 137-151): per effect, form
`dzA = delChangeStats - addChangeStats` and
`sumChangeStats = addChangeStats + delChangeStats`, accumulate the
squared change into `D0`, and step `theta` by
`(dzA < 0 ? -1 : 1) * da * dzA * dzA` with
`da = ACA / sumChangeStats^2` when `sumChangeStats` is nonzero and `0`
otherwise. -/
def algSStep (ACA : ℚ) (st : SState) (out : SamplerOut) : SState :=
  let dzA : ℕ → ℚ := fun k => out.delCS k - out.addCS k
  let sumCS : ℕ → ℚ := fun k => out.addCS k + out.delCS k
  let da : ℕ → ℚ := fun k =>
    if sumCS k < 0 ∨ 0 < sumCS k then ACA / (sumCS k * sumCS k) else 0
  { theta := fun k =>
      st.theta k + (if dzA k < 0 then (-1 : ℚ) else 1) * da k * (dzA k * dzA k)
    D0 := fun k => st.D0 k + dzA k * dzA k }

/-- algorithm_S (equilibriumExpectation.c lines 84-164): starting from
`theta = 0` and `D0 = 0`, run one loop iteration per sampler output in
`outs` (the sampler is called with performMove=FALSE), and finally set
`Dmean[k] = sampler_m / D0[k]`.  Returns the final (theta, D0) state
paired with Dmean. -/
def algorithm_S (ACA : ℚ) (outs : List SamplerOut) (sampler_m : ℚ) :
    SState × (ℕ → ℚ) :=
  let final := outs.foldl (algSStep ACA) { theta := fun _ => 0, D0 := fun _ => 0 }
  (final, fun k => sampler_m / final.D0 k)

/-- State threaded through the loops of algorithm_EE: the accumulator
`dzA` (calloc-zeroed once, at entry) and the parameter vector `theta`. -/
structure EEState where
  dzA : ℕ → ℚ
  theta : ℕ → ℚ

/-- One inner iteration of algorithm_EE
(equilibriumExpectation.c lines 281-293): per effect, accumulate
`dzA += addChangeStats - delChangeStats`, then step `theta` by
`(dzA < 0 ? 1 : -1) * da * dzA * dzA` with `da = D0 * ACA`, using the
just-updated `dzA`. -/
def eeInnerStep (ACA : ℚ) (D0 : ℕ → ℚ) (st : EEState) (out : SamplerOut) : EEState :=
  let dzA : ℕ → ℚ := fun k => st.dzA k + (out.addCS k - out.delCS k)
  { dzA := dzA
    theta := fun k =>
      st.theta k + (if dzA k < 0 then (1 : ℚ) else -1) * (D0 k * ACA) * (dzA k * dzA k) }

/-- The outer loop of algorithm_EE.  Each outer iteration is given the
value of `D0` it runs with together with the list of sampler outputs of
its inner iterations; the rescaling of `D0` between outer iterations
(equilibriumExpectation.c lines 302-318) involves a real square root of
the theta mean/sd ratio, so the successive `D0` vectors are supplied as
inputs rather than recomputed in rational arithmetic.  The state — in
particular the accumulator `dzA` — is threaded through unchanged from
one outer iteration to the next. -/
def eeOuter (ACA : ℚ) : EEState → List ((ℕ → ℚ) × List SamplerOut) → EEState
  | st, [] => st
  | st, (D0, outs) :: rest => eeOuter ACA (outs.foldl (eeInnerStep ACA D0) st) rest

/-- algorithm_EE (equilibriumExpectation.c lines 214-332): `dzA` is
zeroed once at entry (the safe_calloc at line 236) and then the nested
loops run; `theta` enters with the values produced by algorithm_S. -/
def algorithm_EE (ACA : ℚ) (theta0 : ℕ → ℚ)
    (blocks : List ((ℕ → ℚ) × List SamplerOut)) : EEState :=
  eeOuter ACA { dzA := fun _ => 0, theta := theta0 } blocks

/-- The sign function of the specification, used to state the theta
update rules of the two algorithms in the spec's form
`sign(dzA) * step * dzA^2`. -/
def ratSign (q : ℚ) : ℚ :=
  if q < 0 then -1 else if q = 0 then 0 else 1

/-- The step multiplier of Algorithm S in the specification's form:
`ACA_S / sumCS^2` when the summed change statistic is nonzero and `0`
otherwise. -/
def acaS (ACA sumCS : ℚ) : ℚ :=
  if sumCS ≠ 0 then ACA / (sumCS * sumCS) else 0

/-! Driver arithmetic for the output row indices (claim C9).  `uint_t`
is a 32-bit unsigned integer; `t - M1` at equilibriumExpectation.c line
118 is computed modulo 2^32 and printed with the signed conversion
`%d`. -/

/-- The modulus of `uint_t` arithmetic. -/
def UINT_MOD : ℕ := 2 ^ 32

/-- Unsigned 32-bit subtraction `a - b` as computed by C on `uint_t`. -/
def uintSub (a b : ℕ) : ℕ :=
  (a % UINT_MOD + (UINT_MOD - b % UINT_MOD)) % UINT_MOD

/-- The value printed by `printf("%d", x)` for a `uint_t` argument `x`:
the bit pattern reinterpreted as a two's-complement 32-bit signed
integer. -/
def printf_d (x : ℕ) : ℤ :=
  if x % UINT_MOD < 2 ^ 31 then (x % UINT_MOD : ℤ)
  else (x % UINT_MOD : ℤ) - (UINT_MOD : ℤ)

/-- First column of row `t` of the theta stream during algorithm_S:
`fprintf(theta_outfile, "%d ", t - M1)` with `t` and `M1` unsigned
(equilibriumExpectation.c line 118). -/
def algSRowIndex (M1 t : ℕ) : ℤ :=
  printf_d (uintSub t M1)

/-- The first-column values of the `M1` rows emitted by algorithm_S, in
emission order `t = 0, ..., M1 - 1`. -/
def algSRowIndices (M1 : ℕ) : List ℤ :=
  (List.range M1).map (algSRowIndex M1)

/-- `M1 = (uint_t)(M1_steps * g->num_nodes / sampler_m)` of
equilibriumExpectation.c line 410: the product is computed in `uint_t`
arithmetic (modulo 2^32) before the integer division. -/
def computeM1 (M1steps numNodes sampler_m : ℕ) : ℕ :=
  (M1steps % UINT_MOD) * (numNodes % UINT_MOD) % UINT_MOD / (sampler_m % UINT_MOD)

/-- The values of the counter `t` at which algorithm_EE emits an output
row (equilibriumExpectation.c lines 252-298): `t` runs from `0` through
the `Mouter * Minner` inner iterations, incremented once per inner
iteration, and a row is emitted when `outputAllSteps` is set or the
inner index `tinner = t % Minner` is `0`. -/
def eeRowIndices (Mouter Minner : ℕ) (outputAllSteps : Bool) : List ℕ :=
  (List.range (Mouter * Minner)).filter (fun t => outputAllSteps || t % Minner = 0)

/-! Control flow of the driver do_estimation (claim C4). -/

/-- The inputs that decide the control flow of do_estimation
(equilibriumExpectation.c lines 480-644): success of each fallible step
in program order, the IFD flag, and the configured structural parameter
names. -/
structure EstConfig where
  arclistOpenOk : Bool
  zoneFilenamePresent : Bool
  zonesOk : Bool
  attrIndicesOk : Bool
  dyadicIndicesOk : Bool
  thetaOpenOk : Bool
  dzAOpenOk : Bool
  useIFDsampler : Bool
  paramNames : List String

/-- The observable outcome of do_estimation for claim C4: the returned
status and whether each of the two output files was opened (created by
`fopen(..., "w")`) before the function returned. -/
structure EstResult where
  status : ℤ
  thetaFileOpened : Bool
  dzAFileOpened : Bool
deriving DecidableEq

/-- `ARC_PARAM_STR` of configparser.h. -/
def arcParamName : String := "Arc"

/-- The test `strcasecmp(config->param_names[i], ARC_PARAM_STR) == 0` of
equilibriumExpectation.c line 584: case-insensitive equality with
"Arc", computed character by character. -/
def isArcParam (s : String) : Bool :=
  s.data.map Char.toLower == arcParamName.data.map Char.toLower

/-- Control flow of do_estimation (equilibriumExpectation.c lines
480-644), recording the status returned and which output files were
opened.  The order mirrors the source: open the arc-list file, load
zones, build attribute and dyadic indices, open the THETA output file
(line 568), only then check the IFD-with-Arc configuration error (lines
582-592), and open the dzA output file after that check (line 594). -/
def do_estimation (c : EstConfig) : EstResult :=
  if !c.arclistOpenOk then ⟨-1, false, false⟩
  else if c.zoneFilenamePresent && !c.zonesOk then ⟨-1, false, false⟩
  else if !c.attrIndicesOk then ⟨-1, false, false⟩
  else if !c.dyadicIndicesOk then ⟨-1, false, false⟩
  else if !c.thetaOpenOk then ⟨-1, false, false⟩
  else if c.useIFDsampler && c.paramNames.any isArcParam then ⟨-1, true, false⟩
  else if !c.dzAOpenOk then ⟨-1, true, false⟩
  else ⟨0, true, true⟩

/-! Concrete instances used to evaluate the theorems below on explicit
inputs. -/

/-- A two-node digraph with no arcs and a flat list matching the arc
set. -/
def gTwo : Digraph :=
  { numNodes := 2, arcset := ∅, allarcs := [], zone := fun _ => 0,
    maxZone := 0, innerNodes := [], prevWaveDegree := fun _ => 0 }

/-- A two-node digraph with the single arc 0 -> 1. -/
def gOne : Digraph :=
  { numNodes := 2, arcset := {(0, 1)}, allarcs := [(0, 1)], zone := fun _ => 0,
    maxZone := 0, innerNodes := [], prevWaveDegree := fun _ => 0 }

/-- A three-node snowball sample: node v is in zone v, the outermost
zone is 2, and the inner nodes (zone < 2) are 0 and 1. -/
def gSnow : Digraph :=
  { numNodes := 3, arcset := {(1, 2)}, allarcs := [(1, 2)], zone := fun v => v,
    maxZone := 2, innerNodes := [0, 1], prevWaveDegree := fun _ => 1 }

/-- One effect with constant change statistic 1, theta = 0, no moves
performed, every proposal accepted (the abstract exponential returns
positive infinity, as exp does on any argument large enough to
overflow). -/
def cfgNoMove : SamplerCfg :=
  { n := 1, chgStat := fun _ _ _ _ => 1, theta := fun _ => 0,
    performMove := false, useConditionalEstimation := false,
    forbidReciprocity := false, expD := fun _ => DVal.posInf }

/-- Like cfgNoMove but the abstract exponential returns NaN, so every
proposal is rejected by the IEEE comparison. -/
def cfgReject : SamplerCfg :=
  { cfgNoMove with expD := fun _ => DVal.nan }

/-- One effect whose change statistic is the constant -1 (as the
continuous-attribute Sender effect produces on a node whose attribute
value is -1); moves are performed and every proposal is accepted. -/
def cfgNegStat : SamplerCfg :=
  { n := 1, chgStat := fun _ _ _ _ => -1, theta := fun _ => 0,
    performMove := true, useConditionalEstimation := false,
    forbidReciprocity := false, expD := fun _ => DVal.posInf }

/-- One effect with constant change statistic 0; moves are performed
and every proposal is accepted. -/
def cfgMove : SamplerCfg :=
  { n := 1, chgStat := fun _ _ _ _ => 0, theta := fun _ => 0,
    performMove := true, useConditionalEstimation := false,
    forbidReciprocity := false, expD := fun _ => DVal.posInf }

/-- Conditional-estimation configuration over one constant effect,
performing moves and accepting every proposal. -/
def cfgCond : SamplerCfg :=
  { n := 1, chgStat := fun _ _ _ _ => 0, theta := fun _ => 0,
    performMove := true, useConditionalEstimation := true,
    forbidReciprocity := false, expD := fun _ => DVal.posInf }

/-- One effect with change statistic 1 and theta = 1000, so that
`total = 1000` on every proposal; the abstract exponential mirrors the
overflow of the C `exp`, returning positive infinity for arguments at
or above 710 (exp overflows the double range just below 709.79) and a
finite value below that. -/
def cfgOverflow : SamplerCfg :=
  { n := 1, chgStat := fun _ _ _ _ => 1, theta := fun _ => 1000,
    performMove := false, useConditionalEstimation := false,
    forbidReciprocity := false,
    expD := fun t => if 710 ≤ t then DVal.posInf else DVal.fin 1 }

/-- A single proposal on the dyad (0, 1) with uniform draw 1/2. -/
def prHalf : Proposal := ⟨[(0, 1)], 1 / 2⟩

/-- Two proposals on the dyad (0, 1): with every proposal accepted and
moves performed, the first adds the arc and the second deletes it
again. -/
def props2 : List Proposal := [prHalf, prHalf]

/-- A configuration that enables the IFD sampler while listing Arc
among the structural parameters, with every file operation and index
build succeeding. -/
def cfgIFDArc : EstConfig :=
  { arclistOpenOk := true, zoneFilenamePresent := false, zonesOk := true,
    attrIndicesOk := true, dyadicIndicesOk := true, thetaOpenOk := true,
    dzAOpenOk := true, useIFDsampler := true,
    paramNames := ["Arc", "Reciprocity"] }

/-- A sampler output with zero add change statistics and delete change
statistics equal to 1 for every effect. -/
def outOnes : SamplerOut := ⟨fun _ => 0, fun _ => 1⟩

/-! Helper lemmas shared by the claim theorems. -/

/-- The code's conditional step multiplier of algorithm_S equals the
spec's `acaS`. -/
theorem da_eq_acaS (ACA s : ℚ) :
    (if s < 0 ∨ 0 < s then ACA / (s * s) else 0) = acaS ACA s := by
  unfold acaS
  by_cases h : s = 0
  · subst h; norm_num
  · rw [if_pos (lt_or_gt_of_ne h), if_pos h]

/-- The code's ternary-sign step of algorithm_S equals the spec's
`sign(dz) * da * dz^2` form (the two differ syntactically at dz = 0,
where both are 0). -/
theorem sign_step_eq (da dz : ℚ) :
    (if dz < 0 then (-1 : ℚ) else 1) * da * (dz * dz) = ratSign dz * da * dz ^ 2 := by
  unfold ratSign
  rcases lt_trichotomy dz 0 with h | h | h
  · rw [if_pos h, if_pos h]; ring
  · subst h; norm_num
  · rw [if_neg (not_lt.mpr h.le), if_neg (not_lt.mpr h.le), if_neg h.ne']; ring

/-- The code's ternary-sign step of algorithm_EE equals the spec's
`-sign(dz) * da * dz^2` form. -/
theorem neg_sign_step_eq (da dz : ℚ) :
    (if dz < 0 then (1 : ℚ) else -1) * da * (dz * dz) = -ratSign dz * da * dz ^ 2 := by
  unfold ratSign
  rcases lt_trichotomy dz 0 with h | h | h
  · rw [if_pos h, if_pos h]; ring
  · subst h; norm_num
  · rw [if_neg (not_lt.mpr h.le), if_neg (not_lt.mpr h.le), if_neg h.ne']; ring

/-- The inner fold of algorithm_EE accumulates `dzA` additively: it is
never reset inside a loop. -/
theorem eeInner_foldl_dzA (ACA : ℚ) (D0 : ℕ → ℚ) (k : ℕ) :
    ∀ (outs : List SamplerOut) (st : EEState),
      (outs.foldl (eeInnerStep ACA D0) st).dzA k
        = st.dzA k + (outs.map fun o => o.addCS k - o.delCS k).sum := by
  intro outs
  induction outs with
  | nil => intro st; simp
  | cons o rest ih =>
    intro st
    rw [List.foldl_cons, ih, List.map_cons, List.sum_cons]
    simp only [eeInnerStep]
    ring

/-- The outer loop of algorithm_EE accumulates `dzA` across outer
iterations as well: `dzA` is zeroed only once, at entry. -/
theorem eeOuter_dzA (ACA : ℚ) (k : ℕ) :
    ∀ (blocks : List ((ℕ → ℚ) × List SamplerOut)) (st : EEState),
      (eeOuter ACA st blocks).dzA k
        = st.dzA k
          + (blocks.map fun b => ((b.2.map fun o => o.addCS k - o.delCS k).sum)).sum := by
  intro blocks
  induction blocks with
  | nil => intro st; simp [eeOuter]
  | cons b rest ih =>
    intro st
    obtain ⟨D0b, outs⟩ := b
    rw [eeOuter, ih, eeInner_foldl_dzA, List.map_cons, List.sum_cons]
    ring

/-- C1: in Algorithm EE, every inner iteration first accumulates
`dzA[k] += addChangeStats[k] - delChangeStats[k]` and then steps
`theta[k]` by `-sign(dzA[k]) * (D0[k] * ACA_EE) * dzA[k]^2` using the
just-updated accumulator (a zero step when `dzA[k] = 0`); and `dzA` is
zeroed only once, at EE entry, accumulating across all inner and outer
iterations. -/
theorem C1_algorithm_EE_update :
    (∀ (ACA : ℚ) (D0 : ℕ → ℚ) (st : EEState) (out : SamplerOut) (k : ℕ),
        (eeInnerStep ACA D0 st out).dzA k
          = st.dzA k + (out.addCS k - out.delCS k)
        ∧ (eeInnerStep ACA D0 st out).theta k
          = st.theta k
            + -ratSign ((eeInnerStep ACA D0 st out).dzA k)
              * (D0 k * ACA) * ((eeInnerStep ACA D0 st out).dzA k) ^ 2)
    ∧ (∀ (ACA : ℚ) (theta0 : ℕ → ℚ) (blocks : List ((ℕ → ℚ) × List SamplerOut)) (k : ℕ),
        (algorithm_EE ACA theta0 blocks).dzA k
          = (blocks.map fun b => ((b.2.map fun o => o.addCS k - o.delCS k).sum)).sum) := by
  constructor
  · intro ACA D0 st out k
    refine ⟨rfl, ?_⟩
    simp only [eeInnerStep]
    rw [neg_sign_step_eq]
  · intro ACA theta0 blocks k
    unfold algorithm_EE
    rw [eeOuter_dzA]
    simp

/-- C2: Algorithm S starts theta at 0 for every effect; each iteration
accumulates `D0[k] += (delChangeStats[k] - addChangeStats[k])^2` and
steps `theta[k]` by `sign(dzA_t[k]) * aca_k * dzA_t[k]^2` where
`aca_k = ACA_S / sumChangeStats[k]^2` when the summed change statistic
is nonzero and 0 otherwise; and on return `Dmean[k] = sampler_m / D0[k]`
for every effect. -/
theorem C2_algorithm_S_update :
    (∀ (ACA m : ℚ) (k : ℕ), (algorithm_S ACA [] m).1.theta k = 0)
    ∧ (∀ (ACA : ℚ) (st : SState) (out : SamplerOut) (k : ℕ),
        (algSStep ACA st out).D0 k
          = st.D0 k + (out.delCS k - out.addCS k) ^ 2
        ∧ (algSStep ACA st out).theta k
          = st.theta k
            + ratSign (out.delCS k - out.addCS k)
              * acaS ACA (out.addCS k + out.delCS k)
              * (out.delCS k - out.addCS k) ^ 2)
    ∧ (∀ (ACA : ℚ) (outs : List SamplerOut) (m : ℚ) (k : ℕ),
        (algorithm_S ACA outs m).2 k = m / (algorithm_S ACA outs m).1.D0 k) := by
  refine ⟨fun ACA m k => rfl, ?_, fun ACA outs m k => rfl⟩
  intro ACA st out k
  simp only [algSStep]
  refine ⟨by ring, ?_⟩
  rw [da_eq_acaS, sign_step_eq]

/-- The loop accumulation of `total` in basicSampler.c equals the
specification's sum over the effect indices. -/
theorem computeTotal_eq_sum (n : ℕ) (theta : ℕ → ℚ) (s : ℚ) (cs : ℕ → ℚ) :
    computeTotal n theta s cs = ∑ k ∈ Finset.range n, theta k * s * cs k := by
  induction n with
  | zero => simp [computeTotal]
  | succ m ih =>
    unfold computeTotal at ih ⊢
    rw [List.range_succ, List.foldl_append, ih, List.foldl_cons, List.foldl_nil,
      Finset.sum_range_succ]

/-- Reduction of proposalStepFull when dyad selection fails. -/
theorem proposalStepFull_none (cfg : SamplerCfg) (st : SamplerState) (pr : Proposal)
    (hsel : selectDyad st.g cfg.useConditionalEstimation cfg.forbidReciprocity pr.draws
      = none) :
    proposalStepFull cfg st pr = (st, false) := by
  unfold proposalStepFull
  rw [hsel]

/-- Reduction of proposalStepFull when dyad selection returns (i, j). -/
theorem proposalStepFull_some (cfg : SamplerCfg) (st : SamplerState) (pr : Proposal)
    (i j : ℕ)
    (hsel : selectDyad st.g cfg.useConditionalEstimation cfg.forbidReciprocity pr.draws
      = some (i, j)) :
    proposalStepFull cfg st pr = proposalGo cfg st i j pr.u (effIsDelete cfg st i j) := by
  unfold proposalStepFull
  rw [hsel]

/-- Reduction of proposalStep when dyad selection returns (i, j). -/
theorem proposalStep_some (cfg : SamplerCfg) (st : SamplerState) (pr : Proposal)
    (i j : ℕ)
    (hsel : selectDyad st.g cfg.useConditionalEstimation cfg.forbidReciprocity pr.draws
      = some (i, j)) :
    proposalStep cfg st pr = (proposalGo cfg st i j pr.u (effIsDelete cfg st i j)).1 := by
  unfold proposalStep
  rw [proposalStepFull_some cfg st pr i j hsel]

/-- C3 (amended): for every selected proposal, the accept decision is
the IEEE comparison `u < exp(total)` with
`total = sum over k of theta[k] * s * Delta[k]`, `s = -1` for a delete
(the arc temporarily removed first) and `+1` for an add; a NaN value of
`exp(total)` makes the comparison false (rejection), but a value of
`exp(total)` that is positive infinity (overflow) makes it true, so the
proposal is ACCEPTED, not rejected. -/
theorem C3_accept_rule_amended :
    (∀ u q : ℚ, dLt (DVal.fin u) (DVal.fin q) = decide (u < q))
    ∧ (∀ u : ℚ, dLt (DVal.fin u) DVal.nan = false)
    ∧ (∀ u : ℚ, dLt (DVal.fin u) DVal.posInf = true)
    ∧ (∀ (cfg : SamplerCfg) (st : SamplerState) (pr : Proposal) (i j : ℕ),
        selectDyad st.g cfg.useConditionalEstimation cfg.forbidReciprocity pr.draws
          = some (i, j) →
        (proposalStepFull cfg st pr).2
          = dLt (DVal.fin pr.u)
              (cfg.expD
                (∑ k ∈ Finset.range cfg.n,
                  cfg.theta k
                    * (if effIsDelete cfg st i j = true then (-1 : ℚ) else 1)
                    * cfg.chgStat k
                        (if effIsDelete cfg st i j = true then removeArc st.g i j
                         else st.g) i j))) := by
  refine ⟨fun u q => rfl, fun u => rfl, fun u => rfl, ?_⟩
  intro cfg st pr i j hsel
  rw [proposalStepFull_some cfg st pr i j hsel]
  cases hd : effIsDelete cfg st i j with
  | true =>
    rw [← computeTotal_eq_sum]
    cases hacc : dLt (DVal.fin pr.u) (cfg.expD (computeTotal cfg.n cfg.theta (-1)
      fun k => cfg.chgStat k (removeArc st.g i j) i j)) <;> simp [proposalGo, hacc]
  | false =>
    rw [← computeTotal_eq_sum]
    cases hacc : dLt (DVal.fin pr.u) (cfg.expD (computeTotal cfg.n cfg.theta 1
      fun k => cfg.chgStat k st.g i j)) <;> simp [proposalGo, hacc]

/-- C3 witness: the amended accept rule evaluated on a concrete
configuration and proposal. -/
theorem C3_accept_rule_witness :
    (proposalStepFull cfgOverflow (initState gTwo) prHalf).2
      = dLt (DVal.fin prHalf.u)
          (cfgOverflow.expD
            (∑ k ∈ Finset.range cfgOverflow.n,
              cfgOverflow.theta k
                * (if effIsDelete cfgOverflow (initState gTwo) 0 1 = true then (-1 : ℚ) else 1)
                * cfgOverflow.chgStat k
                    (if effIsDelete cfgOverflow (initState gTwo) 0 1 = true
                     then removeArc (initState gTwo).g 0 1
                     else (initState gTwo).g) 0 1)) :=
  C3_accept_rule_amended.2.2.2 cfgOverflow (initState gTwo) prHalf 0 1 (by decide)

/-- C3 counterexample: with theta = 1000 and a constant change
statistic of 1, `total = 1000` and `exp(total)` overflows to positive
infinity — a non-finite value — yet the proposal is accepted, because
`u < +infinity` is true; the claim states that every non-finite
`exp(total)` is treated as a rejection. -/
theorem C3_counterexample :
    cfgOverflow.expD 1000 = DVal.posInf
    ∧ (proposalStepFull cfgOverflow (initState gTwo) prHalf).2 = true := by
  constructor
  · norm_num [cfgOverflow]
  · have hsel : selectDyad (initState gTwo).g cfgOverflow.useConditionalEstimation
        cfgOverflow.forbidReciprocity prHalf.draws = some (0, 1) := by decide
    rw [proposalStepFull_some cfgOverflow (initState gTwo) prHalf 0 1 hsel]
    norm_num [proposalGo, effIsDelete, cfgOverflow, initState, gTwo, isArc, computeTotal,
      List.range_succ, dLt]

/-- C4 (amended): when the configuration lists Arc among the structural
parameters and enables the IFD sampler (and every earlier step of
do_estimation succeeds), the driver returns the negative status -1 and
the dzA output file is never opened — but the theta output file HAS
already been opened (created) by the time the check fires, because the
source opens it at line 568, before the IFD-with-Arc validation at
lines 582-592. -/
theorem C4_ifd_arc_error_amended :
    ∀ c : EstConfig,
      c.useIFDsampler = true →
      c.paramNames.any isArcParam = true →
      c.arclistOpenOk = true →
      (c.zoneFilenamePresent && !c.zonesOk) = false →
      c.attrIndicesOk = true →
      c.dyadicIndicesOk = true →
      c.thetaOpenOk = true →
      (do_estimation c).status = -1
      ∧ (do_estimation c).thetaFileOpened = true
      ∧ (do_estimation c).dzAFileOpened = false := by
  intro c h1 h2 h3 h4 h5 h6 h7
  simp [do_estimation, h1, h2, h3, h4, h5, h6, h7]

/-- C4 witness: the amended claim evaluated on a concrete
configuration. -/
theorem C4_ifd_arc_error_witness :
    (do_estimation cfgIFDArc).status = -1
    ∧ (do_estimation cfgIFDArc).thetaFileOpened = true
    ∧ (do_estimation cfgIFDArc).dzAFileOpened = false :=
  C4_ifd_arc_error_amended cfgIFDArc (by decide) (by decide) (by decide) (by decide)
    (by decide) (by decide) (by decide)

/-- C4 counterexample: on a configuration listing Arc with the IFD
sampler enabled and all file operations succeeding, do_estimation
returns status -1 but with the theta output file opened, contradicting
the claim that neither output file is created. -/
theorem C4_counterexample :
    do_estimation cfgIFDArc
      = { status := -1, thetaFileOpened := true, dzAFileOpened := false } := by
  decide

/-- In conditional-estimation mode a proposal never assigns the C local
variable `isDelete`, so a step preserves it. -/
theorem proposalStep_isDelete_cond (cfg : SamplerCfg) (st : SamplerState) (pr : Proposal)
    (hc : cfg.useConditionalEstimation = true) :
    (proposalStep cfg st pr).isDelete = st.isDelete := by
  unfold proposalStep
  cases hsel : selectDyad st.g cfg.useConditionalEstimation cfg.forbidReciprocity pr.draws with
  | none => rw [proposalStepFull_none cfg st pr hsel]
  | some p =>
    obtain ⟨i, j⟩ := p
    rw [proposalStepFull_some cfg st pr i j hsel]
    cases hd : effIsDelete cfg st i j with
    | true =>
      have hst : st.isDelete = true := by
        rw [effIsDelete, hc] at hd; simpa using hd
      simp only [proposalGo]
      split <;> simp [hst]
    | false =>
      have hst : st.isDelete = false := by
        rw [effIsDelete, hc] at hd; simpa using hd
      simp only [proposalGo]
      split <;> simp [hst]

/-- A proposal step with performMove false leaves the arc set
unchanged, provided `isDelete` is false whenever the mode is
conditional (which holds on every reachable state). -/
theorem proposalStep_arcset_no_move (cfg : SamplerCfg) (st : SamplerState) (pr : Proposal)
    (hpm : cfg.performMove = false)
    (hcd : cfg.useConditionalEstimation = true → st.isDelete = false) :
    (proposalStep cfg st pr).g.arcset = st.g.arcset := by
  unfold proposalStep
  cases hsel : selectDyad st.g cfg.useConditionalEstimation cfg.forbidReciprocity pr.draws with
  | none => rw [proposalStepFull_none cfg st pr hsel]
  | some p =>
    obtain ⟨i, j⟩ := p
    rw [proposalStepFull_some cfg st pr i j hsel]
    cases hd : effIsDelete cfg st i j with
    | true =>
      have hmem : (i, j) ∈ st.g.arcset := by
        rw [effIsDelete] at hd
        cases hc : cfg.useConditionalEstimation with
        | true => rw [hc, hcd hc] at hd; simp at hd
        | false =>
          rw [hc] at hd
          simp only [Bool.false_eq_true, if_false] at hd
          simpa [isArc] using hd
      simp only [proposalGo]
      split <;> simp [hpm, insertArc, removeArc, Finset.insert_erase hmem]
    | false =>
      simp only [proposalGo]
      split <;> simp [hpm]

/-- A rejected proposal step leaves the arc set unchanged in every
mode (under the same reachable-state condition on `isDelete`). -/
theorem proposalStep_arcset_rejected (cfg : SamplerCfg) (st : SamplerState) (pr : Proposal)
    (hcd : cfg.useConditionalEstimation = true → st.isDelete = false)
    (hrej : (proposalStepFull cfg st pr).2 = false) :
    (proposalStep cfg st pr).g.arcset = st.g.arcset := by
  unfold proposalStep
  cases hsel : selectDyad st.g cfg.useConditionalEstimation cfg.forbidReciprocity pr.draws with
  | none => rw [proposalStepFull_none cfg st pr hsel]
  | some p =>
    obtain ⟨i, j⟩ := p
    rw [proposalStepFull_some cfg st pr i j hsel] at hrej ⊢
    cases hd : effIsDelete cfg st i j with
    | true =>
      have hmem : (i, j) ∈ st.g.arcset := by
        rw [effIsDelete] at hd
        cases hc : cfg.useConditionalEstimation with
        | true => rw [hc, hcd hc] at hd; simp at hd
        | false =>
          rw [hc] at hd
          simp only [Bool.false_eq_true, if_false] at hd
          simpa [isArc] using hd
      rw [hd] at hrej
      simp only [proposalGo] at hrej ⊢
      split
      · next hacc =>
          rw [if_pos hacc] at hrej
          simp at hrej
      · simp [insertArc, removeArc, Finset.insert_erase hmem]
    | false =>
      rw [hd] at hrej
      simp only [proposalGo] at hrej ⊢
      split
      · next hacc =>
          rw [if_pos hacc] at hrej
          simp at hrej
      · simp

/-- Folding any number of proposals with performMove false preserves
the arc set. -/
theorem basicSampler_foldl_no_move (cfg : SamplerCfg) (hpm : cfg.performMove = false) :
    ∀ (props : List Proposal) (st : SamplerState),
      (cfg.useConditionalEstimation = true → st.isDelete = false) →
      (props.foldl (proposalStep cfg) st).g.arcset = st.g.arcset := by
  intro props
  induction props with
  | nil => intro st _; rfl
  | cons pr rest ih =>
    intro st h
    rw [List.foldl_cons,
      ih _ (fun hc => by rw [proposalStep_isDelete_cond cfg st pr hc]; exact h hc)]
    exact proposalStep_arcset_no_move cfg st pr hpm h

/-- C5: a basicSampler call with performMove false returns the graph
with the same arc set it started with (accepted deletes re-inserted,
accepted adds never inserted); and a rejected proposal leaves the arc
set unchanged in any mode. -/
theorem C5_graph_restored :
    (∀ (cfg : SamplerCfg) (g0 : Digraph) (props : List Proposal),
        cfg.performMove = false →
        (basicSampler cfg g0 props).g.arcset = g0.arcset)
    ∧ (∀ (cfg : SamplerCfg) (st : SamplerState) (pr : Proposal),
        (cfg.useConditionalEstimation = true → st.isDelete = false) →
        (proposalStepFull cfg st pr).2 = false →
        (proposalStep cfg st pr).g.arcset = st.g.arcset) := by
  constructor
  · intro cfg g0 props hpm
    exact basicSampler_foldl_no_move cfg hpm props (initState g0) (fun _ => rfl)
  · intro cfg st pr hcd hrej
    exact proposalStep_arcset_rejected cfg st pr hcd hrej

/-- C5 witness: on a concrete graph with the arc 0 -> 1, a
performMove-false call leaves the arc set unchanged, and a rejected
proposal (NaN exponential) leaves the arc set unchanged. -/
theorem C5_graph_restored_witness :
    (basicSampler cfgNoMove gOne [prHalf]).g.arcset = gOne.arcset
    ∧ (proposalStep cfgReject (initState gOne) prHalf).g.arcset
        = (initState gOne).g.arcset := by
  constructor
  · exact C5_graph_restored.1 cfgNoMove gOne [prHalf] rfl
  · refine C5_graph_restored.2 cfgReject (initState gOne) prHalf (fun _ => rfl) ?_
    have hsel : selectDyad (initState gOne).g cfgReject.useConditionalEstimation
        cfgReject.forbidReciprocity prHalf.draws = some (0, 1) := by decide
    rw [proposalStepFull_some cfgReject (initState gOne) prHalf 0 1 hsel]
    norm_num [proposalGo, effIsDelete, cfgReject, cfgNoMove, initState, gOne, isArc, dLt]

/-- A proposal step preserves non-negativity of the two accumulators
whenever every change statistic is non-negative. -/
theorem proposalStep_cs_nonneg (cfg : SamplerCfg) (st : SamplerState) (pr : Proposal) (k : ℕ)
    (hnn : ∀ (k : ℕ) (g : Digraph) (i j : ℕ), 0 ≤ cfg.chgStat k g i j)
    (h : 0 ≤ st.addCS k ∧ 0 ≤ st.delCS k) :
    0 ≤ (proposalStep cfg st pr).addCS k ∧ 0 ≤ (proposalStep cfg st pr).delCS k := by
  unfold proposalStep
  cases hsel : selectDyad st.g cfg.useConditionalEstimation cfg.forbidReciprocity pr.draws with
  | none => rw [proposalStepFull_none cfg st pr hsel]; exact h
  | some p =>
    obtain ⟨i, j⟩ := p
    rw [proposalStepFull_some cfg st pr i j hsel]
    cases hd : effIsDelete cfg st i j with
    | true =>
      simp only [proposalGo]
      split
      · exact ⟨h.1, add_nonneg h.2 (hnn k (removeArc st.g i j) i j)⟩
      · exact h
    | false =>
      simp only [proposalGo]
      split
      · exact ⟨add_nonneg h.1 (hnn k st.g i j), h.2⟩
      · exact h

/-- Folding proposals preserves non-negativity of the accumulators
under non-negative change statistics. -/
theorem basicSampler_cs_nonneg_fold (cfg : SamplerCfg)
    (hnn : ∀ (k : ℕ) (g : Digraph) (i j : ℕ), 0 ≤ cfg.chgStat k g i j) (k : ℕ) :
    ∀ (props : List Proposal) (st : SamplerState),
      0 ≤ st.addCS k ∧ 0 ≤ st.delCS k →
      0 ≤ (props.foldl (proposalStep cfg) st).addCS k
      ∧ 0 ≤ (props.foldl (proposalStep cfg) st).delCS k := by
  intro props
  induction props with
  | nil => intro st h; exact h
  | cons pr rest ih =>
    intro st h
    rw [List.foldl_cons]
    exact ih _ (proposalStep_cs_nonneg cfg st pr k hnn h)

/-- C6 (amended): the addChangeStats and delChangeStats vectors are
zeroed at entry and accumulate change-statistic values of accepted add
and delete moves respectively; every component is non-negative on
return PROVIDED every change-statistic function is non-negative (true
for counting statistics, false in general, e.g. for continuous
attribute effects). -/
theorem C6_changestats_nonneg_amended :
    ∀ (cfg : SamplerCfg) (g0 : Digraph) (props : List Proposal),
      (∀ (k : ℕ) (g : Digraph) (i j : ℕ), 0 ≤ cfg.chgStat k g i j) →
      ∀ k, 0 ≤ (basicSampler cfg g0 props).addCS k
           ∧ 0 ≤ (basicSampler cfg g0 props).delCS k := by
  intro cfg g0 props hnn k
  exact basicSampler_cs_nonneg_fold cfg hnn k props (initState g0) ⟨le_refl 0, le_refl 0⟩

/-- C6 witness: a call with the constant change statistic 1 returns
non-negative accumulators. -/
theorem C6_changestats_nonneg_witness :
    0 ≤ (basicSampler cfgNoMove gOne [prHalf]).addCS 0
    ∧ 0 ≤ (basicSampler cfgNoMove gOne [prHalf]).delCS 0 :=
  C6_changestats_nonneg_amended cfgNoMove gOne [prHalf]
    (fun k g i j => by norm_num [cfgNoMove]) 0

/-- C6 counterexample: with one effect whose change statistic is the
constant -1 (as a continuous-attribute Sender effect yields on a node
with attribute value -1), a single accepted add move leaves
addChangeStats[0] = -1 < 0 on return, contradicting the claimed
non-negativity. -/
theorem C6_counterexample :
    (basicSampler cfgNegStat gTwo [prHalf]).addCS 0 < 0 := by
  show (proposalStep cfgNegStat (initState gTwo) prHalf).addCS 0 < 0
  have hsel : selectDyad (initState gTwo).g cfgNegStat.useConditionalEstimation
      cfgNegStat.forbidReciprocity prHalf.draws = some (0, 1) := by decide
  unfold proposalStep
  rw [proposalStepFull_some cfgNegStat (initState gTwo) prHalf 0 1 hsel]
  norm_num [proposalGo, effIsDelete, cfgNegStat, initState, gTwo, isArc, computeTotal,
    List.range_succ, dLt]

/-- A proposal step never changes the zone, inner-node list, maximum
zone, or flat all-arcs list of the digraph: insertArc and removeArc
touch only the arc set and prev-wave degrees. -/
theorem proposalStep_fields (cfg : SamplerCfg) (st : SamplerState) (pr : Proposal) :
    (proposalStep cfg st pr).g.zone = st.g.zone
    ∧ (proposalStep cfg st pr).g.innerNodes = st.g.innerNodes
    ∧ (proposalStep cfg st pr).g.maxZone = st.g.maxZone
    ∧ (proposalStep cfg st pr).g.allarcs = st.g.allarcs := by
  unfold proposalStep
  cases hsel : selectDyad st.g cfg.useConditionalEstimation cfg.forbidReciprocity pr.draws with
  | none => rw [proposalStepFull_none cfg st pr hsel]; exact ⟨rfl, rfl, rfl, rfl⟩
  | some p =>
    obtain ⟨i, j⟩ := p
    rw [proposalStepFull_some cfg st pr i j hsel]
    cases hd : effIsDelete cfg st i j <;> simp only [proposalGo] <;> split <;>
      cases hpm : cfg.performMove <;>
      simp [hpm, insertArc, removeArc]

/-- In conditional mode, a proposal step can only toggle a dyad whose
endpoints are both inner nodes, so the membership of any dyad with an
endpoint at or beyond the outermost zone is preserved. -/
theorem proposalStep_outer_arcs (cfg : SamplerCfg) (st : SamplerState) (pr : Proposal)
    (a b : ℕ)
    (hc : cfg.useConditionalEstimation = true)
    (hdraws : ∀ d ∈ pr.draws, d.1 ∈ st.g.innerNodes ∧ d.2 ∈ st.g.innerNodes)
    (hinner : ∀ v ∈ st.g.innerNodes, st.g.zone v < st.g.maxZone)
    (hout : st.g.maxZone ≤ st.g.zone a ∨ st.g.maxZone ≤ st.g.zone b) :
    ((a, b) ∈ (proposalStep cfg st pr).g.arcset ↔ (a, b) ∈ st.g.arcset) := by
  unfold proposalStep
  cases hsel : selectDyad st.g cfg.useConditionalEstimation cfg.forbidReciprocity pr.draws with
  | none => rw [proposalStepFull_none cfg st pr hsel]
  | some p =>
    obtain ⟨i, j⟩ := p
    have hpmem : (i, j) ∈ pr.draws := by
      unfold selectDyad at hsel
      rw [hc, if_pos rfl] at hsel
      exact List.mem_of_find?_eq_some hsel
    have hij := hdraws _ hpmem
    have hzi : st.g.zone i < st.g.maxZone := hinner _ hij.1
    have hzj : st.g.zone j < st.g.maxZone := hinner _ hij.2
    have hne : ¬((a, b) = (i, j)) := by
      intro hEq
      rw [Prod.mk.injEq] at hEq
      rcases hout with h | h
      · rw [hEq.1] at h; exact absurd hzi (not_lt.mpr h)
      · rw [hEq.2] at h; exact absurd hzj (not_lt.mpr h)
    rw [proposalStepFull_some cfg st pr i j hsel]
    cases hd : effIsDelete cfg st i j <;> simp only [proposalGo] <;> split <;>
      cases hpm : cfg.performMove <;>
      simp [hpm, insertArc, removeArc, Finset.mem_insert, Finset.mem_erase, hne]

/-- Folding proposals in conditional mode preserves the membership of
every dyad with an endpoint at or beyond the outermost zone. -/
theorem basicSampler_outer_arcs_fold (cfg : SamplerCfg)
    (hc : cfg.useConditionalEstimation = true) (a b : ℕ) :
    ∀ (props : List Proposal) (st : SamplerState),
      (∀ pr ∈ props, ∀ d ∈ pr.draws, d.1 ∈ st.g.innerNodes ∧ d.2 ∈ st.g.innerNodes) →
      (∀ v ∈ st.g.innerNodes, st.g.zone v < st.g.maxZone) →
      (st.g.maxZone ≤ st.g.zone a ∨ st.g.maxZone ≤ st.g.zone b) →
      ((a, b) ∈ (props.foldl (proposalStep cfg) st).g.arcset ↔ (a, b) ∈ st.g.arcset) := by
  intro props
  induction props with
  | nil => intro st _ _ _; exact Iff.rfl
  | cons pr rest ih =>
    intro st hdraws hinner hout
    rw [List.foldl_cons]
    have hf := proposalStep_fields cfg st pr
    have ihs := ih (proposalStep cfg st pr)
      (by rw [hf.2.1]; exact fun pr' h' => hdraws pr' (List.mem_cons_of_mem _ h'))
      (by rw [hf.2.1, hf.1, hf.2.2.1]; exact hinner)
      (by rw [hf.1, hf.2.2.1]; exact hout)
    rw [ihs]
    exact proposalStep_outer_arcs cfg st pr a b hc
      (hdraws pr (List.mem_cons_self _ _)) hinner hout

/-- C7: in conditional (snowball) mode, every selected proposal (i, j)
satisfies i differs from j, |zone i - zone j| <= 1, and is never a
deletion of an existing tie that is the last connection of the deeper
endpoint to its preceding wave; both endpoints come from inner_nodes,
hence have zone below the outermost zone; and consequently no call of
the sampler ever changes the membership of an arc with an endpoint in
the outermost wave. -/
theorem C7_snowball_constraints :
    (∀ (g : Digraph) (fr : Bool) (draws : List (ℕ × ℕ)) (p : ℕ × ℕ),
        selectDyad g true fr draws = some p →
        (p.1 ≠ p.2
         ∧ ((g.zone p.1 : ℤ) - (g.zone p.2 : ℤ)).natAbs ≤ 1
         ∧ (isArcIgnoreDirection g p.1 p.2 = true →
             ¬(g.zone p.2 < g.zone p.1 ∧ g.prevWaveDegree p.1 = 1)
             ∧ ¬(g.zone p.1 < g.zone p.2 ∧ g.prevWaveDegree p.2 = 1))
         ∧ ((∀ d ∈ draws, d.1 ∈ g.innerNodes ∧ d.2 ∈ g.innerNodes) →
             (∀ v ∈ g.innerNodes, g.zone v < g.maxZone) →
             g.zone p.1 < g.maxZone ∧ g.zone p.2 < g.maxZone)))
    ∧ (∀ (cfg : SamplerCfg) (g0 : Digraph) (props : List Proposal) (a b : ℕ),
        cfg.useConditionalEstimation = true →
        (∀ pr ∈ props, ∀ d ∈ pr.draws, d.1 ∈ g0.innerNodes ∧ d.2 ∈ g0.innerNodes) →
        (∀ v ∈ g0.innerNodes, g0.zone v < g0.maxZone) →
        (g0.maxZone ≤ g0.zone a ∨ g0.maxZone ≤ g0.zone b) →
        ((a, b) ∈ (basicSampler cfg g0 props).g.arcset ↔ (a, b) ∈ g0.arcset)) := by
  constructor
  · intro g fr draws p hsel
    unfold selectDyad at hsel
    rw [if_pos rfl] at hsel
    have hp := List.find?_some hsel
    have hmemd := List.mem_of_find?_eq_some hsel
    simp only [condOK, Bool.and_eq_true, decide_eq_true_eq, Bool.not_eq_true'] at hp
    refine ⟨hp.1.1, hp.1.2, ?_, ?_⟩
    · intro harc
      have hX := hp.2
      rw [harc, Bool.true_and] at hX
      simp only [Bool.or_eq_false_iff, Bool.and_eq_false_iff,
        decide_eq_false_iff_not] at hX
      constructor
      · intro hcon
        rcases hX.1 with h | h
        · exact h hcon.1
        · exact h hcon.2
      · intro hcon
        rcases hX.2 with h | h
        · exact h hcon.1
        · exact h hcon.2
    · intro hdraws hinner
      have hij := hdraws _ hmemd
      exact ⟨hinner _ hij.1, hinner _ hij.2⟩
  · intro cfg g0 props a b hc hdraws hinner hout
    exact basicSampler_outer_arcs_fold cfg hc a b props (initState g0) hdraws hinner hout

/-- C7 witness: on a concrete three-node two-wave snowball sample, a
selected proposal satisfies the constraints and a full conditional
sampler call preserves the arc 1 -> 2, which touches the outermost
wave. -/
theorem C7_snowball_witness :
    ((0, 1).1 ≠ (0, 1).2
     ∧ ((gSnow.zone (0, 1).1 : ℤ) - (gSnow.zone (0, 1).2 : ℤ)).natAbs ≤ 1
     ∧ (isArcIgnoreDirection gSnow (0, 1).1 (0, 1).2 = true →
         ¬(gSnow.zone (0, 1).2 < gSnow.zone (0, 1).1 ∧ gSnow.prevWaveDegree (0, 1).1 = 1)
         ∧ ¬(gSnow.zone (0, 1).1 < gSnow.zone (0, 1).2 ∧ gSnow.prevWaveDegree (0, 1).2 = 1))
     ∧ ((∀ d ∈ [((0 : ℕ), (1 : ℕ))], d.1 ∈ gSnow.innerNodes ∧ d.2 ∈ gSnow.innerNodes) →
         (∀ v ∈ gSnow.innerNodes, gSnow.zone v < gSnow.maxZone) →
         gSnow.zone (0, 1).1 < gSnow.maxZone ∧ gSnow.zone (0, 1).2 < gSnow.maxZone))
    ∧ ((1, 2) ∈ (basicSampler cfgCond gSnow [prHalf]).g.arcset ↔ (1, 2) ∈ gSnow.arcset) := by
  constructor
  · exact C7_snowball_constraints.1 gSnow false [(0, 1)] (0, 1) (by decide)
  · refine C7_snowball_constraints.2 cfgCond gSnow [prHalf] 1 2 rfl ?_ (by decide)
      (Or.inr (by decide))
    intro pr hpr d hd
    rw [List.mem_singleton] at hpr
    subst hpr
    revert d hd
    decide

/-- The D0 accumulator of algorithm_S never decreases along the loop:
every iteration adds a square. -/
theorem algS_D0_mono (ACA : ℚ) (k : ℕ) :
    ∀ (outs : List SamplerOut) (st : SState),
      st.D0 k ≤ (outs.foldl (algSStep ACA) st).D0 k := by
  intro outs
  induction outs with
  | nil => intro st; exact le_refl _
  | cons o rest ih =>
    intro st
    rw [List.foldl_cons]
    refine le_trans ?_ (ih _)
    show st.D0 k ≤ st.D0 k + _
    exact le_add_of_nonneg_right (mul_self_nonneg _)

/-- If some iteration of algorithm_S sees a nonzero dzA_t[k], then D0[k]
ends strictly positive. -/
theorem algS_D0_pos (ACA : ℚ) (k : ℕ) :
    ∀ (outs : List SamplerOut) (st : SState),
      0 ≤ st.D0 k →
      (∃ o ∈ outs, o.delCS k - o.addCS k ≠ 0) →
      0 < (outs.foldl (algSStep ACA) st).D0 k := by
  intro outs
  induction outs with
  | nil => intro st _ h; exact absurd h (by simp)
  | cons o rest ih =>
    intro st hnn h
    rw [List.foldl_cons]
    rcases h with ⟨o', ho', hne⟩
    rcases List.mem_cons.mp ho' with rfl | hmem
    · refine lt_of_lt_of_le ?_ (algS_D0_mono ACA k rest _)
      show 0 < st.D0 k + (o'.delCS k - o'.addCS k) * (o'.delCS k - o'.addCS k)
      have hsq := mul_self_pos.mpr hne
      linarith
    · refine ih _ ?_ ⟨o', hmem, hne⟩
      show 0 ≤ st.D0 k + (o.delCS k - o.addCS k) * (o.delCS k - o.addCS k)
      have hsq := mul_self_nonneg (o.delCS k - o.addCS k)
      linarith

/-- C8 (amended): after algorithm_S, `D0[k]` is the sum of the squared
per-iteration differences `dzA_t[k]^2`; it is strictly positive — and
with it `Dmean[k] = sampler_m / D0[k]` — whenever `sampler_m` is
positive and at least one iteration had `dzA_t[k]` nonzero.  (Without
that proviso `D0[k]` can be zero: see the counterexample.) -/
theorem C8_Dmean_pos_amended :
    ∀ (ACA : ℚ) (outs : List SamplerOut) (m : ℚ) (k : ℕ),
      0 < m →
      (∃ o ∈ outs, o.delCS k - o.addCS k ≠ 0) →
      0 < (algorithm_S ACA outs m).1.D0 k ∧ 0 < (algorithm_S ACA outs m).2 k := by
  intro ACA outs m k hm hex
  have hpos := algS_D0_pos ACA k outs { theta := fun _ => 0, D0 := fun _ => 0 }
    (le_refl 0) hex
  refine ⟨hpos, ?_⟩
  show 0 < m / _
  exact div_pos hm hpos

/-- C8 witness: with one sampler output whose delete change statistic
is 1, both D0 and Dmean are positive. -/
theorem C8_Dmean_pos_witness :
    0 < (algorithm_S 1 [outOnes] 5).1.D0 0 ∧ 0 < (algorithm_S 1 [outOnes] 5).2 0 :=
  C8_Dmean_pos_amended 1 [outOnes] 5 0 (by norm_num)
    ⟨outOnes, List.mem_singleton_self _, by norm_num [outOnes]⟩

/-- C8 counterexample: feeding algorithm_S the output of a sampler call
that accepted no move (an empty proposal list leaves both accumulators
zeroed, exactly as a sweep whose every proposal is rejected does) gives
dzA_t = 0 and hence D0[0] = 0 — the division sampler_m / D0[0] is a
division by zero, contradicting the claim that D0[k] is nonzero for
every graph, effect set and draw sequence. -/
theorem C8_counterexample :
    (algorithm_S 1 [⟨(basicSampler cfgNoMove gOne []).addCS,
        (basicSampler cfgNoMove gOne []).delCS⟩] 5).1.D0 0 = 0 := by
  norm_num [algorithm_S, algSStep, basicSampler, initState]

/-- For `t < M1 <= 2^31`, the unsigned computation `t - M1` printed
through the signed conversion yields exactly the integer `t - M1`. -/
theorem algSRowIndex_eq (M1 t : ℕ) (hM1 : M1 ≤ 2 ^ 31) (ht : t < M1) :
    algSRowIndex M1 t = (t : ℤ) - M1 := by
  unfold algSRowIndex uintSub printf_d UINT_MOD
  have h31 : (2 : ℕ) ^ 31 = 2147483648 := by norm_num
  have h32 : (2 : ℕ) ^ 32 = 4294967296 := by norm_num
  rw [h31, h32] at *
  have htM : t < 4294967296 := by omega
  have hMlt : M1 < 4294967296 := by omega
  rw [Nat.mod_eq_of_lt htM, Nat.mod_eq_of_lt hMlt]
  have hv : t + (4294967296 - M1) < 4294967296 := by omega
  rw [Nat.mod_eq_of_lt hv, Nat.mod_eq_of_lt hv, if_neg (by omega)]
  omega

/-- C9 (amended): provided `M1 <= 2^31`, Algorithm S emits exactly `M1`
rows whose first column takes the values `-M1, ..., -1` in order, even
though the index is computed as `t - M1` on unsigned 32-bit integers
and printed through a signed conversion; provided `M1_steps * n` does
not overflow 32 bits (and `m > 0`), `M1 = floor(M1_steps * n / m)`; and
Algorithm EE's rows continue from `t = 0` counting up by 1 when
`outputAllSteps` is set (otherwise only every `M_in`-th counter value
is emitted). -/
theorem C9_row_indices_amended :
    (∀ M1 t : ℕ, M1 ≤ 2 ^ 31 → t < M1 → algSRowIndex M1 t = (t : ℤ) - M1)
    ∧ (∀ M1 : ℕ, M1 ≤ 2 ^ 31 →
        algSRowIndices M1 = (List.range M1).map (fun t : ℕ => (t : ℤ) - M1))
    ∧ (∀ M1 : ℕ, (algSRowIndices M1).length = M1)
    ∧ (∀ M1steps n m : ℕ, 0 < m → M1steps < UINT_MOD → n < UINT_MOD →
        m < UINT_MOD → M1steps * n < UINT_MOD →
        computeM1 M1steps n m = M1steps * n / m)
    ∧ (∀ Mo Mi : ℕ, eeRowIndices Mo Mi true = List.range (Mo * Mi)) := by
  refine ⟨algSRowIndex_eq, ?_, ?_, ?_, ?_⟩
  · intro M1 hM1
    unfold algSRowIndices
    refine List.map_congr_left ?_
    intro t ht
    exact algSRowIndex_eq M1 t hM1 (List.mem_range.mp ht)
  · intro M1
    unfold algSRowIndices
    rw [List.length_map, List.length_range]
  · intro M1steps n m hm h1 h2 h3 h4
    unfold computeM1
    rw [Nat.mod_eq_of_lt h1, Nat.mod_eq_of_lt h2, Nat.mod_eq_of_lt h3,
      Nat.mod_eq_of_lt h4]
  · intro Mo Mi
    simp [eeRowIndices]

/-- C9 witness: for M1 = 3 the emitted S rows are -3, -2, -1 and have
length 3; M1 computed from M1_steps = 6, n = 5, m = 10 is 3; and with
outputAllSteps the EE rows for 2 x 2 iterations are 0, 1, 2, 3. -/
theorem C9_row_indices_witness :
    algSRowIndex 3 0 = (0 : ℤ) - 3
    ∧ algSRowIndices 3 = (List.range 3).map (fun t : ℕ => (t : ℤ) - 3)
    ∧ (algSRowIndices 3).length = 3
    ∧ computeM1 6 5 10 = 6 * 5 / 10
    ∧ eeRowIndices 2 2 true = List.range (2 * 2) :=
  ⟨C9_row_indices_amended.1 3 0 (by norm_num) (by norm_num),
   C9_row_indices_amended.2.1 3 (by norm_num),
   C9_row_indices_amended.2.2.1 3,
   C9_row_indices_amended.2.2.2.1 6 5 10 (by norm_num) (by norm_num [UINT_MOD])
     (by norm_num [UINT_MOD]) (by norm_num [UINT_MOD]) (by norm_num [UINT_MOD]),
   C9_row_indices_amended.2.2.2.2 2 2⟩

/-- C9 counterexample: the claim fails as stated on extreme inputs and
on the default output mode: (1) with M1 = 3 * 2^30 > 2^31, row t = 0
prints +2^30 instead of -M1; (2) with outputAllSteps false, the EE rows
for 2 x 2 iterations are 0, 2 — not counting up by 1; (3) with
M1_steps = 2^31 and n = 2, the 32-bit product overflows to 0, so
M1 = 0 instead of floor(2^32 / 1). -/
theorem C9_counterexample :
    algSRowIndex (3 * 2 ^ 30) 0 = 2 ^ 30
    ∧ eeRowIndices 2 2 false = [0, 2]
    ∧ computeM1 (2 ^ 31) 2 1 = 0 := by
  refine ⟨?_, ?_, ?_⟩ <;> decide

/-- A basicSampler call never changes the flat all-arcs list. -/
theorem basicSampler_allarcs_fold (cfg : SamplerCfg) :
    ∀ (props : List Proposal) (st : SamplerState),
      (props.foldl (proposalStep cfg) st).g.allarcs = st.g.allarcs := by
  intro props
  induction props with
  | nil => intro st; rfl
  | cons pr rest ih =>
    intro st
    rw [List.foldl_cons, ih, (proposalStep_fields cfg st pr).2.2.2]

/-- In unconditional performMove mode, every proposal step preserves
the parity of (arc count + accepted count): an accepted toggle changes
the arc count by exactly one and the accepted count by one, and a
rejected or skipped proposal changes neither. -/
theorem proposalStep_parity (cfg : SamplerCfg) (st : SamplerState) (pr : Proposal)
    (hpm : cfg.performMove = true) (hc : cfg.useConditionalEstimation = false) :
    ((proposalStep cfg st pr).g.arcset.card + (proposalStep cfg st pr).accepted) % 2
      = (st.g.arcset.card + st.accepted) % 2 := by
  unfold proposalStep
  cases hsel : selectDyad st.g cfg.useConditionalEstimation cfg.forbidReciprocity pr.draws with
  | none => rw [proposalStepFull_none cfg st pr hsel]
  | some p =>
    obtain ⟨i, j⟩ := p
    rw [proposalStepFull_some cfg st pr i j hsel]
    cases hd : effIsDelete cfg st i j with
    | true =>
      have hmem : (i, j) ∈ st.g.arcset := by
        rw [effIsDelete, hc] at hd
        simp only [Bool.false_eq_true, if_false] at hd
        simpa [isArc] using hd
      have hpos : 0 < st.g.arcset.card := Finset.card_pos.mpr ⟨_, hmem⟩
      simp only [proposalGo]
      split
      · simp only [hpm, if_true, removeArc]
        rw [Finset.card_erase_of_mem hmem]
        omega
      · simp [insertArc, removeArc, Finset.insert_erase hmem]
    | false =>
      have hnmem : (i, j) ∉ st.g.arcset := by
        rw [effIsDelete, hc] at hd
        simp only [Bool.false_eq_true, if_false] at hd
        simpa [isArc] using hd
      simp only [proposalGo]
      split
      · simp only [hpm, if_true, insertArc]
        rw [Finset.card_insert_of_not_mem hnmem]
        omega
      · rfl

/-- Parity of (arc count + accepted count) is preserved by the whole
fold in unconditional performMove mode. -/
theorem basicSampler_parity_fold (cfg : SamplerCfg)
    (hpm : cfg.performMove = true) (hc : cfg.useConditionalEstimation = false) :
    ∀ (props : List Proposal) (st : SamplerState),
      ((props.foldl (proposalStep cfg) st).g.arcset.card
        + (props.foldl (proposalStep cfg) st).accepted) % 2
      = (st.g.arcset.card + st.accepted) % 2 := by
  intro props
  induction props with
  | nil => intro st; rfl
  | cons pr rest ih =>
    intro st
    rw [List.foldl_cons, ih, proposalStep_parity cfg st pr hpm hc]

/-- C10 (amended): the basic sampler never updates the digraph's flat
all-arcs list — the list is identical before and after every call; so
after a sweep in unconditional performMove mode that accepts EXACTLY
one move, starting from a graph whose flat list matched the arc set,
the flat list no longer matches the actual arc set (two accepted moves
can cancel, so 'at least one' does not suffice: see the
counterexample). -/
theorem C10_allarcs_amended :
    (∀ (cfg : SamplerCfg) (g0 : Digraph) (props : List Proposal),
        (basicSampler cfg g0 props).g.allarcs = g0.allarcs)
    ∧ (∀ (cfg : SamplerCfg) (g0 : Digraph) (props : List Proposal),
        cfg.performMove = true → cfg.useConditionalEstimation = false →
        (basicSampler cfg g0 props).accepted = 1 →
        g0.allarcs.toFinset = g0.arcset →
        (basicSampler cfg g0 props).g.allarcs.toFinset
          ≠ (basicSampler cfg g0 props).g.arcset) := by
  constructor
  · intro cfg g0 props
    exact basicSampler_allarcs_fold cfg props (initState g0)
  · intro cfg g0 props hpm hc hacc hmatch hEq
    have h1 : (basicSampler cfg g0 props).g.allarcs = g0.allarcs :=
      basicSampler_allarcs_fold cfg props (initState g0)
    have h2 : ((basicSampler cfg g0 props).g.arcset.card
        + (basicSampler cfg g0 props).accepted) % 2
        = (g0.arcset.card + 0) % 2 :=
      basicSampler_parity_fold cfg hpm hc props (initState g0)
    rw [hacc] at h2
    have hcard : (basicSampler cfg g0 props).g.allarcs.toFinset.card
        = g0.arcset.card := by rw [h1, hmatch]
    rw [hEq] at hcard
    omega

/-- C10 witness: a sweep accepting exactly one move (a single accepted
add on an initially empty, matching graph) leaves the flat list
unchanged and out of sync with the arc set. -/
theorem C10_allarcs_witness :
    (basicSampler cfgMove gTwo [prHalf]).g.allarcs = gTwo.allarcs
    ∧ (basicSampler cfgMove gTwo [prHalf]).g.allarcs.toFinset
        ≠ (basicSampler cfgMove gTwo [prHalf]).g.arcset := by
  refine ⟨C10_allarcs_amended.1 cfgMove gTwo [prHalf],
    C10_allarcs_amended.2 cfgMove gTwo [prHalf] rfl rfl ?_ (by decide)⟩
  show (proposalStep cfgMove (initState gTwo) prHalf).accepted = 1
  have hsel : selectDyad (initState gTwo).g cfgMove.useConditionalEstimation
      cfgMove.forbidReciprocity prHalf.draws = some (0, 1) := by decide
  unfold proposalStep
  rw [proposalStepFull_some cfgMove (initState gTwo) prHalf 0 1 hsel]
  norm_num [proposalGo, effIsDelete, cfgMove, initState, gTwo, isArc, dLt]

/-- C10 counterexample: a sweep of two proposals on the same dyad, both
accepted (an add followed by a delete of the same arc), accepts at
least one move, yet the unchanged flat list still matches the final arc
set — refuting the claim that any sweep with at least one accepted move
leaves the flat list mismatched. -/
theorem C10_counterexample :
    gTwo.allarcs.toFinset = gTwo.arcset
    ∧ (basicSampler cfgMove gTwo props2).accepted = 2
    ∧ (basicSampler cfgMove gTwo props2).g.allarcs.toFinset
        = (basicSampler cfgMove gTwo props2).g.arcset := by
  have hsel1 : selectDyad (initState gTwo).g cfgMove.useConditionalEstimation
      cfgMove.forbidReciprocity prHalf.draws = some (0, 1) := by decide
  have harc1 : (proposalStep cfgMove (initState gTwo) prHalf).g.arcset = {(0, 1)} := by
    unfold proposalStep
    rw [proposalStepFull_some cfgMove (initState gTwo) prHalf 0 1 hsel1]
    norm_num [proposalGo, effIsDelete, cfgMove, initState, gTwo, isArc, dLt, insertArc]
  have hacc1 : (proposalStep cfgMove (initState gTwo) prHalf).accepted = 1 := by
    unfold proposalStep
    rw [proposalStepFull_some cfgMove (initState gTwo) prHalf 0 1 hsel1]
    norm_num [proposalGo, effIsDelete, cfgMove, initState, gTwo, isArc, dLt]
  have hsel2 : selectDyad (proposalStep cfgMove (initState gTwo) prHalf).g
      cfgMove.useConditionalEstimation cfgMove.forbidReciprocity prHalf.draws
      = some (0, 1) := by
    unfold selectDyad
    rw [show cfgMove.useConditionalEstimation = false from rfl, if_neg (by simp)]
    rw [show prHalf.draws = [(0, 1)] from rfl]
    rw [List.find?_cons_of_pos _ (by simp [uncondOK, cfgMove])]
  have hd2 : effIsDelete cfgMove (proposalStep cfgMove (initState gTwo) prHalf) 0 1
      = true := by
    rw [effIsDelete, show cfgMove.useConditionalEstimation = false from rfl,
      if_neg (by simp)]
    simp [isArc, harc1]
  refine ⟨by decide, ?_, ?_⟩
  · show (proposalStep cfgMove (proposalStep cfgMove (initState gTwo) prHalf)
      prHalf).accepted = 2
    rw [proposalStep_some cfgMove _ prHalf 0 1 hsel2, hd2]
    simp only [proposalGo]
    rw [if_pos (show dLt (DVal.fin prHalf.u) (cfgMove.expD _) = true from rfl)]
    show (proposalStep cfgMove (initState gTwo) prHalf).accepted + 1 = 2
    rw [hacc1]
  · have hall : (basicSampler cfgMove gTwo props2).g.allarcs = gTwo.allarcs :=
      basicSampler_allarcs_fold cfgMove props2 (initState gTwo)
    rw [hall]
    show gTwo.allarcs.toFinset
      = (proposalStep cfgMove (proposalStep cfgMove (initState gTwo) prHalf)
          prHalf).g.arcset
    rw [proposalStep_some cfgMove _ prHalf 0 1 hsel2, hd2]
    simp only [proposalGo]
    rw [if_pos (show dLt (DVal.fin prHalf.u) (cfgMove.expD _) = true from rfl)]
    rw [show cfgMove.performMove = true from rfl, if_pos rfl]
    show gTwo.allarcs.toFinset
      = (removeArc (proposalStep cfgMove (initState gTwo) prHalf).g 0 1).arcset
    rw [removeArc]
    show gTwo.allarcs.toFinset
      = (proposalStep cfgMove (initState gTwo) prHalf).g.arcset.erase (0, 1)
    rw [harc1]
    decide

end EstimNet
